import Mathlib

/-!
Shallow embedding of the AGLA SUMP logic-analyzer firmware
(src/logic_analyzer.ino) and proofs about its specification claims.

Build configuration modelled (the defaults of the sketch on an ATmega328P):
MAX_CAPTURE_SIZE = 1536, MAXMHZ = 5, REVERSED defined, CHAN5 defined.

Machine-integer conventions: on AVR, `int` is 16 bits wide; `int` values are
modelled as `Int` with explicit two's-complement wrapping (`toInt16`).
`byte` values are modelled as `Nat` (always < 256 in the program).
The 16-bit pointer arithmetic of the inline assembler is modelled as a
buffer offset in `Nat` taken modulo 2^16, with the capture buffer itself an
unbounded store `Nat → Nat` so that out-of-range stores are observable.
Real-time behaviour (Timer1 programming, cycle counting) is abstracted: the
sampled input lines are a stream `Nat → Nat` indexed by sample tick.
-/

/-- Build-time buffer capacity for the ATmega328P build (line 139). -/
def MAX_CAPTURE_SIZE : Nat := 1536

/-- Two's-complement interpretation of an integer as a 16-bit AVR `int`. -/
def toInt16 (z : Int) : Int := (z + 32768) % 65536 - 32768

/-- The process-wide session state mutated by the dispatcher; `logicdata` and
`logicIndex` are kept separate (the buffer is re-zeroed at every arm and
`logicIndex` is re-initialized inside `acquireSlow`). Types follow the
globals at lines 161-167: `readCount`, `delayCount` are (16-bit) `int`;
`trigger`, `trigger_values` are bytes; `divider` is `unsigned long`. -/
structure State where
  readCount : Int
  delayCount : Int
  trigger : Nat
  trigger_values : Nat
  divider : Nat
  deriving DecidableEq, Repr

/-- Power-up initializers of the session state (lines 161-167). -/
def initState : State :=
  { readCount := MAX_CAPTURE_SIZE, delayCount := 0, trigger := 0,
    trigger_values := 0, divider := 0 }

/-- Decoding of one 16-bit raw field of SUMP_SET_READ_DELAY_COUNT
(lines 283-288): `4 * (((hi << 8) | lo) + 1)` evaluated in 16-bit `int`
arithmetic, then clamped down to MAX_CAPTURE_SIZE when larger. -/
def decodeCount (lo hi : Nat) : Int :=
  if toInt16 (4 * (toInt16 ((hi : Int) * 256 + lo) + 1)) > (MAX_CAPTURE_SIZE : Int)
  then (MAX_CAPTURE_SIZE : Int)
  else toInt16 (4 * (toInt16 ((hi : Int) * 256 + lo) + 1))

/-- The trigger test of both assembler loops (eor/and/brne, lines 403-405 and
489-491): the loop exits when `(inp XOR trigger_values) AND trigger == 0`. -/
def trigTest (inp v m : Nat) : Bool := (inp ^^^ v) &&& m == 0

/-- The fresh, zeroed capture buffer produced at the start of every arm
command (lines 225-227). -/
def zeroBuf : Nat → Nat := fun _ => 0

/-- Stop offset of the circular write in `acquireSlow`: the inline asm adds
the 16-bit value of `readCount` to the buffer base address (lines 391-392),
so the stop offset is the unsigned 16-bit pattern of `readCount`. -/
def stopOf (rc : Int) : Nat := (rc % 65536).toNat

/-- One pointer advance of the circular write in `acquireSlow`: post-increment
(16-bit), then reset to the base when the stop address is reached exactly
(lines 397-402 / 413-418). -/
def wrapPtr (stop p : Nat) : Nat :=
  let q := (p + 1) % 65536
  if q = stop then 0 else q

/-- Iteration count of an AVR `sbiw rp, 1 / brne` do-while loop running on a
16-bit register pair initialized with the 16-bit pattern of `d` (lines
419-420 and 497-498): the body always runs at least once, and a start value
of zero wraps through the whole 16-bit range, giving 65536 iterations. -/
def sbiwCount (d : Int) : Nat :=
  if (d % 65536).toNat = 0 then 65536 else (d % 65536).toNat

/-- Trigger-wait phase of `acquireSlow` (TRIGLOOP..TRIGTEST, lines 393-405):
on each timer tick, sample, store circularly, advance the pointer, then test
the trigger; repeat while unsatisfied. Modelled with fuel because the loop
runs until the stream satisfies the trigger. Returns the loop result
(buffer, pointer offset, next tick) if the trigger fired within `fuel`
samples, together with the list of buffer offsets written. -/
def slowTrig (m v : Nat) (stream : Nat → Nat) (stop : Nat) :
    Nat → (Nat → Nat) → Nat → Nat → Option ((Nat → Nat) × Nat × Nat) × List Nat
  | 0, _, _, _ => (none, [])
  | fuel + 1, buf, ptr, t =>
    let inp := stream t
    let buf1 := fun j => if j = ptr then inp else buf j
    let ptr1 := wrapPtr stop ptr
    if trigTest inp v m then (some (buf1, ptr1, t + 1), [ptr])
    else
      let r := slowTrig m v stream stop fuel buf1 ptr1 (t + 1)
      (r.1, ptr :: r.2)

/-- Post-trigger sampling phase of `acquireSlow` (SAMPLOOP..ENDTEST, lines
407-420), run for a fixed number of iterations (`sbiwCount` of the
delay count): sample, store circularly, advance the pointer. Returns
(buffer, pointer offset, next tick) and the list of offsets written. -/
def slowPost (stream : Nat → Nat) (stop : Nat) :
    Nat → (Nat → Nat) → Nat → Nat → ((Nat → Nat) × Nat × Nat) × List Nat
  | 0, buf, ptr, t => ((buf, ptr, t), [])
  | n + 1, buf, ptr, t =>
    let buf1 := fun j => if j = ptr then stream t else buf j
    let r := slowPost stream stop n buf1 (wrapPtr stop ptr) (t + 1)
    (r.1, ptr :: r.2)

/-- The divider clamp at the head of `acquireSlow` (line 345):
`if (divider < 99) divider = 99;` — at most 1 MHz. -/
def clampDivider (d : Nat) : Nat := if d < 99 then 99 else d

/-- Index sequence of the REVERSED dump loop of `acquireSlow` (lines
440-447): `logicIndex` was already decremented once before the loop; each of
`readCount` iterations resets a negative index to `readCount - 1`, emits the
current slot, and decrements. -/
def dumpRevIdx (rc : Int) : Nat → Int → List Nat
  | 0, _ => []
  | n + 1, li =>
    let li1 := if li < 0 then rc - 1 else li
    li1.toNat :: dumpRevIdx rc n (li1 - 1)

/-- `acquireSlow` (lines 339-456): divider clamp, circular trigger-wait
phase, post-trigger phase of `sbiwCount delayCount` samples, then the
REVERSED serial dump. The result is `(some (state', output), writes, reads)`
on completion — `state'` reflecting the divider clamp — or
`(none, writes, [])` if the trigger never fired within `fuel`. `writes` and
`reads` are the buffer offsets written by the engine and read by the dump. -/
def acquireSlow (fuel : Nat) (st : State) (buf stream : Nat → Nat) :
    Option (State × List Nat) × List Nat × List Nat :=
  match slowTrig st.trigger st.trigger_values stream (stopOf st.readCount)
      fuel buf 0 0 with
  | (none, tr) => (none, tr, [])
  | (some (buf1, ptr1, t1), tr) =>
    let r := slowPost stream (stopOf st.readCount) (sbiwCount st.delayCount)
      buf1 ptr1 t1
    let idxs := dumpRevIdx st.readCount st.readCount.toNat
      (toInt16 r.1.2.1 - 1)
    (some ({ st with divider := clampDivider st.divider }, idxs.map r.1.1),
     tr ++ r.2, idxs)

/-- Trigger-wait phase of `acquire2MHz` (TRIGLOOP2, lines 487-491): each
examined sample is stored to buffer offset 0 (plain `st`, no increment),
then tested; the loop exits once the trigger is satisfied, leaving the
matching sample at offset 0. Returns (buffer, next tick) and the list of
offsets written. -/
def trig2 (m v : Nat) (stream : Nat → Nat) :
    Nat → (Nat → Nat) → Nat → Option ((Nat → Nat) × Nat) × List Nat
  | 0, _, _ => (none, [])
  | fuel + 1, buf, t =>
    let inp := stream t
    let buf1 := fun j => if j = 0 then inp else buf j
    if trigTest inp v m then (some (buf1, t + 1), [0])
    else
      let r := trig2 m v stream fuel buf1 (t + 1)
      (r.1, 0 :: r.2)

/-- Linear sampling loop of `acquire2MHz` (SAMPLOOP2, lines 494-498): store
and post-increment the 16-bit pointer, `n` times, with no wrap check.
Returns (buffer, pointer offset, next tick) and the offsets written. -/
def lin2 (stream : Nat → Nat) :
    Nat → (Nat → Nat) → Nat → Nat → ((Nat → Nat) × Nat × Nat) × List Nat
  | 0, buf, p, t => ((buf, p, t), [])
  | n + 1, buf, p, t =>
    let buf1 := fun j => if j = p then stream t else buf j
    let r := lin2 stream n buf1 ((p + 1) % 65536) (t + 1)
    (r.1, p :: r.2)

/-- `acquire2MHz` (lines 463-522): sets `delayCount = readCount - 1` (16-bit
`int` arithmetic), runs the trigger-wait loop (storing each examined sample
at offset 0), then the linear loop for `sbiwCount delayCount` samples
starting at offset 1, then dumps `logicdata[readCount-1] .. logicdata[0]`
(REVERSED build). Result shape as in `acquireSlow`. -/
def acquire2MHz (fuel : Nat) (st : State) (buf stream : Nat → Nat) :
    Option (State × List Nat) × List Nat × List Nat :=
  match trig2 st.trigger st.trigger_values stream fuel buf 0 with
  | (none, tr) => (none, tr, [])
  | (some (buf1, t1), tr) =>
    let r := lin2 stream (sbiwCount (toInt16 (st.readCount - 1))) buf1 1 t1
    let idxs := (List.range st.readCount.toNat).reverse
    (some ({ st with delayCount := toInt16 (st.readCount - 1) },
      idxs.map r.1.1), tr ++ r.2, idxs)

/-- First stream index whose sample satisfies the trigger, searched with
fuel. -/
def findTrig (m v : Nat) (stream : Nat → Nat) : Nat → Nat → Option Nat
  | 0, _ => none
  | fuel + 1, t =>
    if trigTest (stream t) v m then some t else findTrig m v stream fuel (t + 1)

/-- Modelled from the spec: the body of `acquire5MHz` is missing from src/ —
`src/logic_analyzer.ino` declares and dispatches to it (line 322) but does
not contain its definition. Per spec section 4.2, Regime C has the same
structural shape as Regime B: a trigger-wait phase that samples without
storing, the first satisfying sample stored at buffer position 0, then
exactly `readCount - 1` further samples appended linearly, followed by the
shared reverse-order dump. Timing correction NOPs have no functional
effect and are not modelled. -/
def acquire5MHz (fuel : Nat) (st : State) (buf stream : Nat → Nat) :
    Option (State × List Nat) × List Nat × List Nat :=
  match findTrig st.trigger st.trigger_values stream fuel 0 with
  | none => (none, [], [])
  | some k =>
    let buf1 := fun j => if j = 0 then stream k else buf j
    let r := lin2 stream (st.readCount - 1).toNat buf1 1 (k + 1)
    let idxs := (List.range st.readCount.toNat).reverse
    (some (st, idxs.map r.1.1), 0 :: r.2, idxs)

/-- Regime dispatch of `acquire` (lines 319-332), MAXMHZ = 5 build:
divider 19 selects the 5 MHz routine, 49 the 2 MHz routine, anything else
the slow (timed, up to 1 MHz) routine. -/
def acquire (fuel : Nat) (st : State) (buf stream : Nat → Nat) :
    Option (State × List Nat) × List Nat × List Nat :=
  if st.divider = 19 then acquire5MHz fuel st buf stream
  else if st.divider = 49 then acquire2MHz fuel st buf stream
  else acquireSlow fuel st buf stream

/-- The SUMP_ARM handler (lines 220-229): zero the capture buffer, then run
the acquisition engine. -/
def arm (fuel : Nat) (st : State) (stream : Nat → Nat) :
    Option (State × List Nat) × List Nat × List Nat :=
  acquire fuel st zeroBuf stream

/-- The metadata record emitted by `send_metadata` (lines 530-599) for the
modelled build: name tag and string AGLArevV1, version tag and string 0.22,
sample-memory tag with big-endian 1536, sample-rate tag with big-endian
5000000, 6 probes, protocol version 2, end marker. -/
def metadataBytes : List Nat :=
  [0x01, 65, 71, 76, 65, 114, 101, 118, 86, 49, 0x00,
   0x02, 48, 46, 50, 50, 0x00,
   0x21, 0x00, 0x00, 0x06, 0x00,
   0x23, 0x00, 0x4C, 0x4B, 0x40,
   0x40, 0x06,
   0x41, 0x02,
   0x00]

/-- State mutation performed by a 5-byte command once its 4 payload bytes
have been read (lines 230-294): trigger mask and values are taken from
payload byte 0 verbatim; the divider is assembled little-endian from
payload bytes 2,1,0; read/delay counts are decoded from two 16-bit fields;
all other 5-byte commands (set-flags, trigger-config, stage 2-4 commands)
discard their payload. -/
def upd5 (st : State) (b b0 b1 b2 b3 : Nat) : State :=
  if b = 0xC0 then { st with trigger := b0 }
  else if b = 0xC1 then { st with trigger_values := b0 }
  else if b = 0x80 then { st with divider := b2 * 65536 + b1 * 256 + b0 }
  else if b = 0x81 then
    { st with readCount := decodeCount b0 b1, delayCount := decodeCount b2 b3 }
  else st

/-- The opcodes handled as 5-byte commands by the dispatcher switch
(lines 230-294). -/
def isFiveByte (b : Nat) : Bool :=
  b == 0x80 || b == 0x81 || b == 0x82 || b == 0xC0 || b == 0xC1 || b == 0xC2 ||
  b == 0xC4 || b == 0xC5 || b == 0xC6 || b == 0xC8 || b == 0xC9 || b == 0xCA ||
  b == 0xCC || b == 0xCD || b == 0xCE

/-- One iteration of the dispatcher loop (lines 199-303): read one opcode
and handle one command, returning (serial output, new session state,
remaining input bytes). Reset (0x00) and self-test (0x03) are no-ops; query
(0x02) emits the 4 identification bytes; get-metadata (0x04) emits the
metadata record; arm (0x01) zeroes the buffer and runs the engine,
streaming its output (if the trigger never fires, the device hangs inside
acquisition and never reads input again, modelled by an empty remainder);
5-byte commands consume their 4 payload bytes via `getCmd` — when fewer
than 4 bytes remain, `Serial.read` yields -1, i.e. byte 0xFF, and the input
is exhausted — and mutate the state per `upd5`; unknown opcodes are
ignored. -/
def step (stream : Nat → Nat) (fuel : Nat) (st : State) :
    List Nat → List Nat × State × List Nat
  | [] => ([], st, [])
  | b :: rest =>
    if b = 0x01 then
      match arm fuel st stream with
      | (none, _, _) => ([], st, [])
      | (some (st1, out), _, _) => (out, st1, rest)
    else if b = 0x02 then ([49, 65, 76, 83], st, rest)
    else if b = 0x04 then (metadataBytes, st, rest)
    else if isFiveByte b then
      match rest with
      | b0 :: b1 :: b2 :: b3 :: r => ([], upd5 st b b0 b1 b2 b3, r)
      | r =>
        ([], upd5 st b (r.getD 0 255) (r.getD 1 255) (r.getD 2 255)
          (r.getD 3 255), [])
    else ([], st, rest)

/-- The dispatcher loop iterated over at most `cmds` commands of a finite
list of received bytes, concatenating the serial output and returning the
final session state. -/
def run (stream : Nat → Nat) (fuel : Nat) : Nat → State → List Nat →
    List Nat × State
  | 0, st, _ => ([], st)
  | _ + 1, st, [] => ([], st)
  | n + 1, st, b :: rest =>
    let s := step stream fuel st (b :: rest)
    let p := run stream fuel n s.2.1 s.2.2
    (s.1 ++ p.1, p.2)

/-! ### Helper lemmas -/

lemma toInt16_eq_self (z : Int) (h1 : -32768 ≤ z) (h2 : z < 32768) :
    toInt16 z = z := by
  unfold toInt16
  omega

lemma decodeCount_mod4 (lo hi : Nat) : decodeCount lo hi % 4 = 0 := by
  unfold decodeCount toInt16 MAX_CAPTURE_SIZE
  split <;> omega

lemma decodeCount_le (lo hi : Nat) :
    decodeCount lo hi ≤ (MAX_CAPTURE_SIZE : Int) := by
  unfold decodeCount toInt16 MAX_CAPTURE_SIZE
  split <;> omega

lemma clampDivider_ge (d : Nat) : 99 ≤ clampDivider d := by
  unfold clampDivider
  split <;> omega

/-! ### C1 -/

/-- C1 as stated is refuted here: the raw read-count field 0x1FFF decodes to
4 × (0x1FFF + 1) = 0x8000, which as a 16-bit signed value is -32768 — a
negative readCount, escaping the upper clamp. -/
theorem C1_decode_negative : decodeCount 255 31 < 0 := by decide

/-- C1 (amended): for every pair of 16-bit raw fields, each decoded count is
a multiple of 4 (in the 16-bit signed arithmetic the program uses) and at
most the buffer capacity, and it is moreover non-negative whenever
4 × (raw + 1) taken modulo 2^16 stays below 2^15; for raw fields where that
product reaches the sign bit (for example raw = 0x1FFF) the decoded count is
negative. -/
theorem C1_decode_mul4_le_cap (lo hi : Nat) (hlo : lo < 256) (hhi : hi < 256) :
    decodeCount lo hi % 4 = 0 ∧ decodeCount lo hi ≤ (MAX_CAPTURE_SIZE : Int) ∧
    (4 * ((hi : Int) * 256 + lo + 1) % 65536 < 32768 →
      0 ≤ decodeCount lo hi) := by
  refine ⟨decodeCount_mod4 lo hi, decodeCount_le lo hi, fun h => ?_⟩
  unfold decodeCount toInt16 MAX_CAPTURE_SIZE
  split <;> omega

/-- Witness for C1: raw read-count field 1 decodes to 8, a non-negative
multiple of 4 within capacity. -/
theorem C1_decode_mul4_le_cap_witness :
    decodeCount 1 0 % 4 = 0 ∧ decodeCount 1 0 ≤ (MAX_CAPTURE_SIZE : Int) ∧
    (4 * ((0 : Int) * 256 + 1 + 1) % 65536 < 32768 → 0 ≤ decodeCount 1 0) :=
  C1_decode_mul4_le_cap 1 0 (by decide) (by decide)

/-! ### C2 -/

/-- C2: the post-trigger sampling loops are sbiw/brne do-while loops, so at
the failing input delayCount = 0 (the power-up default) the engine takes
65536 further samples, not 0; a delay count in 1..65535 gives exactly that
many iterations, as the claim (and the commented-out C reference code at
lines 376-384) describes. -/
theorem C2_sbiw_do_while : sbiwCount 0 = 65536 ∧ sbiwCount 1536 = 1536 := by
  decide

/-! ### C7 -/

/-- C7: a sample s passes the engine trigger test exactly when
(s XOR value) AND mask == 0; a mask of 0 accepts every sample, and with mask
0 both assembler wait loops accept — and in the slow engine store — exactly
the first sample examined, performing a single iteration. -/
theorem C7_trigger_test :
    (∀ s m v : Nat, (trigTest s v m = true ↔ (s ^^^ v) &&& m = 0)) ∧
    (∀ s v : Nat, trigTest s v 0 = true) ∧
    (∀ (v : Nat) (stream : Nat → Nat) (stop fuel : Nat) (buf : Nat → Nat)
      (ptr t : Nat),
      (slowTrig 0 v stream stop (fuel + 1) buf ptr t).2 = [ptr] ∧
      (slowTrig 0 v stream stop (fuel + 1) buf ptr t).1.isSome = true) ∧
    (∀ (v : Nat) (stream : Nat → Nat) (fuel : Nat) (buf : Nat → Nat) (t : Nat),
      (trig2 0 v stream (fuel + 1) buf t).2 = [0]) := by
  have hm0 : ∀ s v : Nat, trigTest s v 0 = true := by
    intro s v
    simp [trigTest]
  refine ⟨fun s m v => ?_, hm0, fun v stream stop fuel buf ptr t => ?_,
    fun v stream fuel buf t => ?_⟩
  · simp [trigTest]
  · constructor <;> simp [slowTrig, hm0]
  · simp [trig2, hm0]

/-! ### C10 -/

/-- C10: at power-up the session state is readCount = capacity,
delayCount = 0, divider = 0, trigger mask = 0, trigger values = 0; a first
arm therefore dispatches to the slow regime (divider 0 is neither 19 nor
49), the slow routine clamps divider 0 up to 99, and the all-zero trigger
specification is satisfied by any first sample. -/
theorem C10_powerup_defaults :
    initState.readCount = (MAX_CAPTURE_SIZE : Int) ∧ initState.delayCount = 0 ∧
    initState.divider = 0 ∧ initState.trigger = 0 ∧
    initState.trigger_values = 0 ∧
    (∀ (fuel : Nat) (buf stream : Nat → Nat),
      acquire fuel initState buf stream = acquireSlow fuel initState buf stream) ∧
    clampDivider initState.divider = 99 ∧
    (∀ s, trigTest s initState.trigger_values initState.trigger = true) := by
  refine ⟨rfl, rfl, rfl, rfl, rfl, fun fuel buf stream => rfl, rfl, fun s => ?_⟩
  simp [trigTest, initState]

/-! ### C6 -/

/-- readCount values that can actually be in session state for a capture:
the power-up default, or the result of decoding a set-read-delay-count
payload. -/
def rcReachable (rc : Int) : Prop :=
  rc = (MAX_CAPTURE_SIZE : Int) ∨
    ∃ lo hi : Nat, lo < 256 ∧ hi < 256 ∧ rc = decodeCount lo hi

lemma dumpRevIdx_formula (rc : Int) (hrc : 0 < rc) :
    ∀ (n : Nat) (li : Int), -1 ≤ li → li < rc →
      dumpRevIdx rc n li =
        (List.range n).map (fun j : Nat => ((li - (j : Int)) % rc).toNat) := by
  intro n
  induction n with
  | zero => intro li h1 h2; simp [dumpRevIdx]
  | succ n ih =>
    intro li h1 h2
    have hli1 : (if li < 0 then rc - 1 else li) = li % rc := by
      rcases lt_or_le li 0 with h | h
      · have hm : li = -1 := by omega
        subst hm
        have e1 := Int.add_mul_emod_self_left (a := (-1 : Int)) (b := rc) (c := 1)
        rw [show (-1 : Int) + rc * 1 = rc - 1 by ring] at e1
        rw [if_pos (by omega), ← e1, Int.emod_eq_of_lt (by omega) (by omega)]
      · rw [if_neg (by omega), Int.emod_eq_of_lt h h2]
    show (if li < 0 then rc - 1 else li).toNat ::
        dumpRevIdx rc n ((if li < 0 then rc - 1 else li) - 1) = _
    rw [hli1, List.range_succ_eq_map, List.map_cons, List.map_map]
    have hnn : 0 ≤ li % rc := Int.emod_nonneg li (by omega)
    have hlt : li % rc < rc := Int.emod_lt_of_pos li hrc
    congr 1
    · simp
    · rw [ih (li % rc - 1) (by omega) (by omega)]
      have hfun : ((fun j : Nat => ((li - (j : Int)) % rc).toNat) ∘ Nat.succ) =
          fun j : Nat => ((li % rc - 1 - (j : Int)) % rc).toNat := by
        funext j
        show ((li - ((j + 1 : Nat) : Int)) % rc).toNat = _
        have heq : (li - ((j + 1 : Nat) : Int)) % rc =
            (li % rc - 1 - (j : Int)) % rc := by
          rw [show li % rc - 1 - (j : Int) = li % rc - ((j + 1 : Nat) : Int) by
            push_cast; ring]
          rw [Int.sub_emod (li % rc), Int.emod_emod_of_dvd li dvd_rfl,
            ← Int.sub_emod]
        rw [heq]
      rw [hfun]

/-- C6: for every capture (readCount the power-up default or any decoded
value) with 0 < readCount ≤ capacity and ending cursor c in [0, readCount),
the REVERSED dump emits exactly readCount bytes, walking backward from
index c - 1 with wraparound to readCount - 1 (index j of the emission is
(c - 1 - j) mod readCount), never emitting slot c first; in particular with
readCount = 8 and cursor 3 the emitted index order is [2,1,0,7,6,5,4,3]. -/
theorem C6_reversed_dump (rc c : Int) (hreach : rcReachable rc) (h0 : 0 < rc)
    (hc0 : 0 ≤ c) (hc : c < rc) :
    dumpRevIdx rc rc.toNat (c - 1) =
      (List.range rc.toNat).map (fun j : Nat => ((c - 1 - (j : Int)) % rc).toNat) ∧
    (dumpRevIdx rc rc.toNat (c - 1)).length = rc.toNat ∧
    (dumpRevIdx rc rc.toNat (c - 1)).head? ≠ some c.toNat ∧
    dumpRevIdx 8 8 2 = [2, 1, 0, 7, 6, 5, 4, 3] := by
  have hrc4 : 4 ≤ rc := by
    rcases hreach with h | ⟨lo, hi, _, _, h⟩
    · rw [h]; unfold MAX_CAPTURE_SIZE; omega
    · have := decodeCount_mod4 lo hi
      omega
  have hform := dumpRevIdx_formula rc h0 rc.toNat (c - 1) (by omega) (by omega)
  refine ⟨hform, ?_, ?_, by decide⟩
  · rw [hform]; simp
  · rw [hform]
    have hpos : rc.toNat = (rc.toNat - 1) + 1 := by omega
    rw [hpos, List.range_succ_eq_map, List.map_cons]
    simp only [List.head?_cons, Nat.cast_zero, Int.sub_zero, ne_eq,
      Option.some.injEq]
    rcases eq_or_lt_of_le hc0 with h | h
    · have hm : c - 1 = -1 := by omega
      rw [hm]
      have e1 := Int.add_mul_emod_self_left (a := (-1 : Int)) (b := rc) (c := 1)
      rw [show (-1 : Int) + rc * 1 = rc - 1 by ring] at e1
      rw [← e1, Int.emod_eq_of_lt (by omega) (by omega)]
      omega
    · rw [Int.emod_eq_of_lt (by omega) (by omega)]
      omega

/-- Witness for C6: readCount 8 (decoded from raw field 1) with ending
cursor 3 satisfies the dump characterization. -/
theorem C6_reversed_dump_witness :
    dumpRevIdx 8 (8 : Int).toNat (3 - 1) =
      (List.range (8 : Int).toNat).map
        (fun j : Nat => ((3 - 1 - (j : Int)) % 8).toNat) ∧
    (dumpRevIdx 8 (8 : Int).toNat (3 - 1)).length = (8 : Int).toNat ∧
    (dumpRevIdx 8 (8 : Int).toNat (3 - 1)).head? ≠ some (3 : Int).toNat ∧
    dumpRevIdx 8 8 2 = [2, 1, 0, 7, 6, 5, 4, 3] :=
  C6_reversed_dump 8 3 (Or.inr ⟨1, 0, by decide, by decide, by decide⟩)
    (by decide) (by decide) (by decide)

/-! ### C3 -/

lemma acquireSlow_state (fuel : Nat) (st : State) (buf stream : Nat → Nat)
    (st1 : State) (out : List Nat)
    (h : (acquireSlow fuel st buf stream).1 = some (st1, out)) :
    st1 = { st with divider := clampDivider st.divider } := by
  unfold acquireSlow at h
  rcases htr : slowTrig st.trigger st.trigger_values stream
      (stopOf st.readCount) fuel buf 0 0 with ⟨ro, tr⟩
  rw [htr] at h
  cases ro with
  | none => simp at h
  | some p =>
    obtain ⟨buf1, ptr1, t1⟩ := p
    simp only [Option.some.injEq, Prod.mk.injEq] at h
    exact h.1.symm

lemma acquire2MHz_state (fuel : Nat) (st : State) (buf stream : Nat → Nat)
    (st1 : State) (out : List Nat)
    (h : (acquire2MHz fuel st buf stream).1 = some (st1, out)) :
    st1 = { st with delayCount := toInt16 (st.readCount - 1) } := by
  unfold acquire2MHz at h
  rcases htr : trig2 st.trigger st.trigger_values stream fuel buf 0 with ⟨ro, tr⟩
  rw [htr] at h
  cases ro with
  | none => simp at h
  | some p =>
    obtain ⟨buf1, t1⟩ := p
    simp only [Option.some.injEq, Prod.mk.injEq] at h
    exact h.1.symm

lemma acquire5MHz_state (fuel : Nat) (st : State) (buf stream : Nat → Nat)
    (st1 : State) (out : List Nat)
    (h : (acquire5MHz fuel st buf stream).1 = some (st1, out)) : st1 = st := by
  unfold acquire5MHz at h
  rcases htr : findTrig st.trigger st.trigger_values stream fuel 0 with _ | k
  · rw [htr] at h; simp at h
  · rw [htr] at h
    simp only [Option.some.injEq, Prod.mk.injEq] at h
    exact h.1.symm

/-- C3 (amended): a completed acquisition leaves the trigger mask, trigger
values and readCount unchanged, but the engine is not read-only on session
state: the slow routine clamps divider up to at least 99, and the 2 MHz
routine overwrites delayCount with readCount - 1 (16-bit arithmetic); the
5 MHz routine and the untouched fields are preserved. -/
theorem C3_engine_state_effect (fuel : Nat) (st : State) (buf stream : Nat → Nat)
    (st1 : State) (out : List Nat)
    (h : (acquire fuel st buf stream).1 = some (st1, out)) :
    st1.trigger = st.trigger ∧ st1.trigger_values = st.trigger_values ∧
    st1.readCount = st.readCount ∧
    st1.divider = (if st.divider = 19 ∨ st.divider = 49 then st.divider
      else clampDivider st.divider) ∧
    st1.delayCount = (if st.divider = 49 then toInt16 (st.readCount - 1)
      else st.delayCount) := by
  unfold acquire at h
  by_cases h19 : st.divider = 19
  · rw [if_pos h19] at h
    rw [acquire5MHz_state fuel st buf stream st1 out h]
    simp [h19]
  · rw [if_neg h19] at h
    by_cases h49 : st.divider = 49
    · rw [if_pos h49] at h
      rw [acquire2MHz_state fuel st buf stream st1 out h]
      simp [h19, h49]
    · rw [if_neg h49] at h
      rw [acquireSlow_state fuel st buf stream st1 out h]
      simp [h19, h49]

/-- C3 as stated is refuted here: arming with session state
(readCount 4, delayCount 4, trigger 0, values 0, divider 0) completes and
returns with divider changed by the engine from 0 to 99. -/
theorem C3_divider_mutated :
    ((acquire 1 ⟨4, 4, 0, 0, 0⟩ zeroBuf (fun _ => 0)).1.map
      fun p => p.1.divider) = some 99 ∧
    (⟨4, 4, 0, 0, 0⟩ : State).divider = 0 := by decide

/-- Witness for C3: the amended frame condition evaluated on a concrete
completed slow-regime acquisition. -/
theorem C3_engine_state_effect_witness :
    (⟨4, 4, 0, 0, 99⟩ : State).trigger = (⟨4, 4, 0, 0, 0⟩ : State).trigger ∧
    (⟨4, 4, 0, 0, 99⟩ : State).trigger_values =
      (⟨4, 4, 0, 0, 0⟩ : State).trigger_values ∧
    (⟨4, 4, 0, 0, 99⟩ : State).readCount = (⟨4, 4, 0, 0, 0⟩ : State).readCount ∧
    (⟨4, 4, 0, 0, 99⟩ : State).divider =
      (if (⟨4, 4, 0, 0, 0⟩ : State).divider = 19 ∨
          (⟨4, 4, 0, 0, 0⟩ : State).divider = 49
        then (⟨4, 4, 0, 0, 0⟩ : State).divider
        else clampDivider (⟨4, 4, 0, 0, 0⟩ : State).divider) ∧
    (⟨4, 4, 0, 0, 99⟩ : State).delayCount =
      (if (⟨4, 4, 0, 0, 0⟩ : State).divider = 49
        then toInt16 ((⟨4, 4, 0, 0, 0⟩ : State).readCount - 1)
        else (⟨4, 4, 0, 0, 0⟩ : State).delayCount) :=
  C3_engine_state_effect 1 ⟨4, 4, 0, 0, 0⟩ zeroBuf (fun _ => 0)
    ⟨4, 4, 0, 0, 99⟩ [0, 0, 0, 0] (by decide)

/-! ### C5 -/

lemma trig2_spec (m v : Nat) (stream : Nat → Nat) :
    ∀ (fuel : Nat) (buf : Nat → Nat) (t : Nat) (buf1 : Nat → Nat) (t1 : Nat)
      (tr : List Nat),
      trig2 m v stream fuel buf t = (some (buf1, t1), tr) →
      ∃ k, t1 = t + k + 1 ∧ tr = List.replicate (k + 1) 0 ∧
        (∀ j, j < k → trigTest (stream (t + j)) v m = false) ∧
        trigTest (stream (t + k)) v m = true ∧
        buf1 = fun j => if j = 0 then stream (t + k) else buf j := by
  intro fuel
  induction fuel with
  | zero => intro buf t buf1 t1 tr h; simp [trig2] at h
  | succ fuel ih =>
    intro buf t buf1 t1 tr h
    by_cases htt : trigTest (stream t) v m = true
    · rw [trig2, if_pos htt] at h
      simp only [Prod.mk.injEq, Option.some.injEq] at h
      refine ⟨0, by omega, ?_, by omega, by simpa using htt, ?_⟩
      · rw [← h.2]; rfl
      · simp only [Nat.add_zero]
        exact h.1.1.symm
    · rw [trig2, if_neg htt] at h
      rcases h2 : trig2 m v stream fuel
          (fun j => if j = 0 then stream t else buf j) (t + 1) with ⟨ro, tr2⟩
      rw [h2] at h
      simp only [Prod.mk.injEq] at h
      obtain ⟨k, hk1, hk2, hk3, hk4, hk5⟩ :=
        ih _ _ buf1 t1 tr2 (by rw [h2, h.1])
      refine ⟨k + 1, by omega, ?_, ?_, ?_, ?_⟩
      · rw [← h.2, hk2]; rfl
      · intro j hj
        cases j with
        | zero => simpa using htt
        | succ j =>
          have := hk3 j (by omega)
          rw [show t + (j + 1) = t + 1 + j by omega]
          exact this
      · rw [show t + (k + 1) = t + 1 + k by omega]
        exact hk4
      · rw [hk5]
        funext j
        by_cases hj : j = 0 <;> simp [hj, show t + 1 + k = t + (k + 1) by omega]

lemma trig2_trace_zero (m v : Nat) (stream : Nat → Nat) :
    ∀ (fuel : Nat) (buf : Nat → Nat) (t : Nat),
      ∀ i ∈ (trig2 m v stream fuel buf t).2, i = 0 := by
  intro fuel
  induction fuel with
  | zero => intro buf t i hi; simp [trig2] at hi
  | succ fuel ih =>
    intro buf t i hi
    rw [trig2] at hi
    by_cases htt : trigTest (stream t) v m = true
    · rw [if_pos htt] at hi
      simpa using hi
    · rw [if_neg htt] at hi
      simp only [List.mem_cons] at hi
      rcases hi with hi | hi
      · exact hi
      · exact ih _ _ i hi

lemma lin2_spec (stream : Nat → Nat) :
    ∀ (n : Nat) (buf : Nat → Nat) (p t : Nat), p + n ≤ 65535 →
      (lin2 stream n buf p t).2 = (List.range n).map (fun j => p + j) ∧
      (lin2 stream n buf p t).1.1 =
        fun j => if p ≤ j ∧ j < p + n then stream (t + (j - p)) else buf j := by
  intro n
  induction n with
  | zero =>
    intro buf p t h
    refine ⟨by simp [lin2], ?_⟩
    funext j
    show buf j = _
    rw [if_neg (by omega : ¬(p ≤ j ∧ j < p + 0))]
  | succ n ih =>
    intro buf p t h
    have hmod : (p + 1) % 65536 = p + 1 := Nat.mod_eq_of_lt (by omega)
    rw [lin2]
    simp only [hmod]
    obtain ⟨ih1, ih2⟩ := ih (fun j => if j = p then stream t else buf j)
      (p + 1) (t + 1) (by omega)
    constructor
    · rw [ih1, List.range_succ_eq_map, List.map_cons, List.map_map]
      have hfun : ((fun j : Nat => p + j) ∘ Nat.succ) =
          fun j : Nat => p + 1 + j := by
        funext j
        show p + (j + 1) = p + 1 + j
        omega
      rw [hfun]
      norm_num
    · rw [ih2]
      funext j
      rcases Nat.lt_trichotomy j p with hj | hj | hj
      · have c1 : ¬(p + 1 ≤ j ∧ j < p + 1 + n) := by omega
        have c2 : ¬(p ≤ j ∧ j < p + (n + 1)) := by omega
        simp [c1, c2, Nat.ne_of_lt hj]
      · subst hj
        have c1 : ¬(j + 1 ≤ j ∧ j < j + 1 + n) := by omega
        have c2 : j ≤ j ∧ j < j + (n + 1) := by omega
        simp [c1, c2]
      · by_cases hj2 : j < p + 1 + n
        · have c1 : p + 1 ≤ j ∧ j < p + 1 + n := by omega
          have c2 : p ≤ j ∧ j < p + (n + 1) := by omega
          rw [if_pos c1, if_pos c2]
          exact congrArg stream (by omega)
        · have c1 : ¬(p + 1 ≤ j ∧ j < p + 1 + n) := by omega
          have c2 : ¬(p ≤ j ∧ j < p + (n + 1)) := by omega
          simp [c1, c2, Nat.ne_of_gt hj]

/-- C5 as stated is refuted here: on the input stream 0,1,1,... with trigger
mask 1 and value 1, the first examined sample (0) does not satisfy the
trigger, yet the 2 MHz trigger-wait loop performs a store for it at buffer
offset 0 — the wait phase does not examine samples "without storing". -/
theorem C5_wait_phase_stores :
    trigTest ((fun t => if t = 0 then 0 else 1) 0) 1 1 = false ∧
    (trig2 1 1 (fun t => if t = 0 then 0 else 1) 2 zeroBuf 0).2 = [0, 0] := by
  decide

/-- C5 (amended): in a completed Regime B acquisition with
2 ≤ readCount ≤ capacity, every examined sample of the trigger-wait phase is
stored to buffer offset 0 (each overwriting the previous, so the first
satisfying sample ends up at position 0), and exactly readCount - 1 further
samples are then stored linearly at offsets 1 .. readCount - 1; the output
is the reverse-ordered stream segment starting at the trigger sample. -/
theorem C5_regime_b (fuel : Nat) (st : State) (buf stream : Nat → Nat)
    (st1 : State) (out : List Nat) (w r : List Nat)
    (h : acquire2MHz fuel st buf stream = (some (st1, out), w, r))
    (h2 : 2 ≤ st.readCount) (h3 : st.readCount ≤ (MAX_CAPTURE_SIZE : Int)) :
    ∃ k, (∀ j, j < k → trigTest (stream j) st.trigger_values st.trigger = false) ∧
      trigTest (stream k) st.trigger_values st.trigger = true ∧
      w = List.replicate (k + 1) 0 ++
        (List.range (st.readCount.toNat - 1)).map (fun j => 1 + j) ∧
      out = (List.range st.readCount.toNat).reverse.map
        (fun i => stream (k + i)) := by
  have hcap : st.readCount ≤ 1536 := by
    have : (MAX_CAPTURE_SIZE : Int) = 1536 := by decide
    omega
  have hdc : toInt16 (st.readCount - 1) = st.readCount - 1 :=
    toInt16_eq_self _ (by omega) (by omega)
  have hsb : sbiwCount (toInt16 (st.readCount - 1)) = st.readCount.toNat - 1 := by
    rw [hdc]
    unfold sbiwCount
    rw [Int.emod_eq_of_lt (by omega) (by omega),
      if_neg (by omega : ¬(st.readCount - 1).toNat = 0)]
    omega
  unfold acquire2MHz at h
  rcases htr : trig2 st.trigger st.trigger_values stream fuel buf 0 with ⟨ro, tr⟩
  rw [htr] at h
  cases ro with
  | none => simp at h
  | some p =>
    obtain ⟨buf1, t1⟩ := p
    simp only [Prod.mk.injEq, Option.some.injEq] at h
    obtain ⟨⟨hst1, hout⟩, hw, hr⟩ := h
    obtain ⟨k, hk1, hk2, hk3, hk4, hk5⟩ :=
      trig2_spec st.trigger st.trigger_values stream fuel buf 0 buf1 t1 tr htr
    simp only [Nat.zero_add] at hk1 hk3 hk4 hk5
    obtain ⟨hl1, hl2⟩ := lin2_spec stream (st.readCount.toNat - 1) buf1 1 t1
      (by omega)
    refine ⟨k, hk3, hk4, ?_, ?_⟩
    · rw [← hw, hk2, hsb, hl1]
    · rw [← hout]
      rw [hsb]
      refine List.map_congr_left ?_
      intro i hi
      rw [List.mem_reverse, List.mem_range] at hi
      simp only [hl2]
      rcases Nat.eq_zero_or_pos i with hi0 | hi0
      · subst hi0
        rw [if_neg (by omega : ¬(1 ≤ 0 ∧ 0 < 1 + (st.readCount.toNat - 1)))]
        simp only [hk5]
        simp
      · rw [if_pos (by omega : 1 ≤ i ∧ i < 1 + (st.readCount.toNat - 1))]
        exact congrArg stream (by omega)

/-- Witness for C5: a concrete completed 2 MHz acquisition with readCount 4
and an always-satisfied trigger on the constant stream 5,5,5,... -/
theorem C5_regime_b_witness :
    ∃ k, (∀ j, j < k →
        trigTest ((fun _ : Nat => 5) j) 0 0 = false) ∧
      trigTest ((fun _ : Nat => 5) k) 0 0 = true ∧
      ([0, 1, 2, 3] : List Nat) = List.replicate (k + 1) 0 ++
        (List.range ((4 : Int).toNat - 1)).map (fun j => 1 + j) ∧
      ([5, 5, 5, 5] : List Nat) = (List.range (4 : Int).toNat).reverse.map
        (fun i => (fun _ : Nat => 5) (k + i)) :=
  C5_regime_b 1 ⟨4, 0, 0, 0, 49⟩ zeroBuf (fun _ => 5) ⟨4, 3, 0, 0, 49⟩
    [5, 5, 5, 5] [0, 1, 2, 3] [3, 2, 1, 0] (by decide) (by decide) (by decide)

/-! ### C8 -/

/-- C8: for every 5-byte command opcode — including the ignored
trigger-config and stage 2-4 variants — the dispatcher handles the command
by consuming exactly the opcode plus its 4 payload bytes, emitting nothing
and leaving precisely the following bytes for the next opcode; and the byte
sequence C4 00 00 00 00 02 produces exactly the 4-byte query response
'1','A','L','S' and nothing else. -/
theorem C8_payload_consumption :
    (∀ (b p0 p1 p2 p3 : Nat) (rest : List Nat) (st : State)
      (stream : Nat → Nat) (fuel : Nat),
      isFiveByte b = true →
      step stream fuel st (b :: p0 :: p1 :: p2 :: p3 :: rest) =
        ([], upd5 st b p0 p1 p2 p3, rest)) ∧
    (∀ (stream : Nat → Nat) (fuel : Nat),
      (run stream fuel 2 initState [0xC4, 0, 0, 0, 0, 0x02]).1 =
        [49, 65, 76, 83]) := by
  constructor
  · intro b p0 p1 p2 p3 rest st stream fuel h
    simp only [isFiveByte, Bool.or_eq_true, beq_iff_eq, or_assoc] at h
    rcases h with h|h|h|h|h|h|h|h|h|h|h|h|h|h|h <;> subst h <;> rfl
  · intro stream fuel
    rfl

/-- Witness for C8: the ignored stage-2 trigger-mask opcode 0xC4 consumes
exactly its 4 payload bytes. -/
theorem C8_payload_consumption_witness :
    step (fun _ => 0) 0 initState (0xC4 :: 7 :: 8 :: 9 :: 10 :: [0x02]) =
      ([], upd5 initState 0xC4 7 8 9 10, [0x02]) :=
  C8_payload_consumption.1 0xC4 7 8 9 10 [0x02] initState (fun _ => 0) 0
    (by decide)


/-! ### C4 -/

lemma wrapPtr_lt (R p : Nat) (hR : 0 < R) (hR2 : R ≤ 65535) (hp : p < R) :
    wrapPtr R p < R := by
  show (if (p + 1) % 65536 = R then 0 else (p + 1) % 65536) < R
  rw [Nat.mod_eq_of_lt (by omega : p + 1 < 65536)]
  split <;> omega

lemma wrapPtr_zero (p : Nat) : wrapPtr 0 p = (p + 1) % 65536 := by
  show (if (p + 1) % 65536 = 0 then 0 else (p + 1) % 65536) = (p + 1) % 65536
  split <;> omega

lemma slowTrig_safe (m v : Nat) (stream : Nat → Nat) (R : Nat) (hR : 0 < R)
    (hR2 : R ≤ 65535) :
    ∀ (fuel : Nat) (buf : Nat → Nat) (ptr t : Nat), ptr < R →
      (∀ i ∈ (slowTrig m v stream R fuel buf ptr t).2, i < R) ∧
      (∀ buf1 ptr1 t1,
        (slowTrig m v stream R fuel buf ptr t).1 = some (buf1, ptr1, t1) →
        ptr1 < R) := by
  intro fuel
  induction fuel with
  | zero =>
    intro buf ptr t hp
    exact ⟨by simp [slowTrig], by simp [slowTrig]⟩
  | succ fuel ih =>
    intro buf ptr t hp
    rw [slowTrig]
    by_cases htt : trigTest (stream t) v m = true
    · rw [if_pos htt]
      refine ⟨by simpa using hp, ?_⟩
      intro buf1 ptr1 t1 h
      simp only [Option.some.injEq, Prod.mk.injEq] at h
      rw [← h.2.1]
      exact wrapPtr_lt R ptr hR hR2 hp
    · rw [if_neg htt]
      obtain ⟨ih1, ih2⟩ := ih (fun j => if j = ptr then stream t else buf j)
        (wrapPtr R ptr) (t + 1) (wrapPtr_lt R ptr hR hR2 hp)
      refine ⟨?_, ih2⟩
      intro i hi
      rcases List.mem_cons.mp hi with hi | hi
      · omega
      · exact ih1 i hi

lemma slowPost_safe (stream : Nat → Nat) (R : Nat) (hR : 0 < R)
    (hR2 : R ≤ 65535) :
    ∀ (n : Nat) (buf : Nat → Nat) (ptr t : Nat), ptr < R →
      (∀ i ∈ (slowPost stream R n buf ptr t).2, i < R) ∧
      (slowPost stream R n buf ptr t).1.2.1 < R := by
  intro n
  induction n with
  | zero =>
    intro buf ptr t hp
    exact ⟨by simp [slowPost], by simpa [slowPost] using hp⟩
  | succ n ih =>
    intro buf ptr t hp
    rw [slowPost]
    obtain ⟨ih1, ih2⟩ := ih (fun j => if j = ptr then stream t else buf j)
      (wrapPtr R ptr) (t + 1) (wrapPtr_lt R ptr hR hR2 hp)
    refine ⟨?_, ih2⟩
    intro i hi
    rcases List.mem_cons.mp hi with hi | hi
    · omega
    · exact ih1 i hi

lemma dumpRevIdx_safe (rc : Int) (h0 : 0 < rc) :
    ∀ (n : Nat) (li : Int), -1 ≤ li → li < rc →
      ∀ i ∈ dumpRevIdx rc n li, i < rc.toNat := by
  intro n
  induction n with
  | zero => intro li h1 h2 i hi; simp [dumpRevIdx] at hi
  | succ n ih =>
    intro li h1 h2 i hi
    rw [dumpRevIdx] at hi
    rcases List.mem_cons.mp hi with hi | hi
    · subst hi
      split <;> omega
    · rcases lt_or_le li 0 with h | h
      · rw [if_pos h] at hi
        exact ih (rc - 1 - 1) (by omega) (by omega) i hi
      · rw [if_neg (by omega)] at hi
        exact ih (li - 1) (by omega) (by omega) i hi

lemma lin2_trace_lt (stream : Nat → Nat) (R n p : Nat) (hn : p + n ≤ R)
    (hR : R ≤ 65535) (buf : Nat → Nat) (t : Nat) :
    ∀ i ∈ (lin2 stream n buf p t).2, i < R := by
  intro i hi
  obtain ⟨hl1, _⟩ := lin2_spec stream n buf p t (by omega)
  rw [hl1] at hi
  simp only [List.mem_map, List.mem_range] at hi
  obtain ⟨j, hj, hij⟩ := hi
  omega

lemma acquire_eq_slow (fuel : Nat) (st : State) (buf stream : Nat → Nat)
    (h19 : st.divider ≠ 19) (h49 : st.divider ≠ 49) :
    acquire fuel st buf stream = acquireSlow fuel st buf stream := by
  unfold acquire
  rw [if_neg h19, if_neg h49]

lemma slowTrig_notrig (m v : Nat) (stream : Nat → Nat)
    (hno : ∀ t, trigTest (stream t) v m = false) :
    ∀ (fuel : Nat) (buf : Nat → Nat) (p t : Nat), p < 65536 →
      (slowTrig m v stream 0 fuel buf p t).1 = none ∧
      (slowTrig m v stream 0 fuel buf p t).2 =
        (List.range fuel).map (fun k => (p + k) % 65536) := by
  intro fuel
  induction fuel with
  | zero => intro buf p t hp; exact ⟨rfl, by simp [slowTrig]⟩
  | succ fuel ih =>
    intro buf p t hp
    rw [slowTrig, if_neg (by simp [hno t])]
    simp only [wrapPtr_zero]
    obtain ⟨ih1, ih2⟩ := ih (fun j => if j = p then stream t else buf j)
      ((p + 1) % 65536) (t + 1) (Nat.mod_lt _ (by omega))
    refine ⟨ih1, ?_⟩
    rw [ih2, List.range_succ_eq_map, List.map_cons, List.map_map]
    have hhead : (p + 0) % 65536 = p := by omega
    rw [hhead]
    have hfun : ((fun k : Nat => (p + k) % 65536) ∘ Nat.succ) =
        fun k : Nat => ((p + 1) % 65536 + k) % 65536 := by
      funext k
      show (p + (k + 1)) % 65536 = ((p + 1) % 65536 + k) % 65536
      omega
    rw [hfun]

/-- C4 as stated is refuted here: the protocol bytes
81 FF 3F FF 3F (set-read-delay-count, both raw fields 0x3FFF, decoding to
readCount = delayCount = 0), C0 01 .. (trigger mask 1), C1 01 .. (trigger
values 1) put the device in a state where, on arm with the input lines
constantly 0, the slow engine's trigger-wait loop wraps only at the 16-bit
stop offset readCount = 0 and wanders past the buffer: offset 1536
(= MAX_CAPTURE_SIZE, one past the last valid index) is among the offsets it
stores to. -/
theorem C4_oob_write :
    MAX_CAPTURE_SIZE ∈
      (acquire 1537 ((run (fun _ => 0) 1 3 initState
          [0x81, 255, 63, 255, 63, 0xC0, 1, 0, 0, 0, 0xC1, 1, 0, 0, 0]).2)
        zeroBuf (fun _ => 0)).2.1 := by
  have hst : (run (fun _ => 0) 1 3 initState
      [0x81, 255, 63, 255, 63, 0xC0, 1, 0, 0, 0, 0xC1, 1, 0, 0, 0]).2 =
      ⟨0, 0, 1, 1, 0⟩ := by decide
  rw [hst]
  have hno : ∀ t, trigTest ((fun _ : Nat => 0) t) 1 1 = false := fun t => by
    show trigTest 0 1 1 = false
    decide
  obtain ⟨hnone, htrace⟩ := slowTrig_notrig 1 1 (fun _ => 0) hno 1537 zeroBuf
    0 0 (by omega)
  rw [acquire_eq_slow 1537 ⟨0, 0, 1, 1, 0⟩ zeroBuf (fun _ => 0) (by decide)
    (by decide)]
  unfold acquireSlow
  rcases hsp : slowTrig (State.mk 0 0 1 1 0).trigger
      (State.mk 0 0 1 1 0).trigger_values (fun _ => 0)
      (stopOf (State.mk 0 0 1 1 0).readCount) 1537 zeroBuf 0 0 with ⟨ro, tr⟩
  have hsp2 : slowTrig 1 1 (fun _ => 0) 0 1537 zeroBuf 0 0 = (ro, tr) := hsp
  rw [hsp2] at hnone htrace
  cases ro with
  | some p => simp at hnone
  | none =>
    show MAX_CAPTURE_SIZE ∈ tr
    have htr2 : tr = List.map (fun k => (0 + k) % 65536) (List.range 1537) :=
      htrace
    rw [htr2, List.mem_map]
    exact ⟨1536, List.mem_range.mpr (by omega), by decide⟩

/-- C4 (amended): provided the session readCount at arm time is positive —
true of the power-up default and of every positive decoded value, which are
all multiples of 4 — every buffer offset written by the engine and read by
the dump loops lies within [0, capacity), for any delayCount, trigger
specification, fuel and input stream; with a non-positive readCount
(reachable from malformed set-read-delay-count payloads) the engine writes
out of bounds, as the counterexample shows. -/
theorem C4_safety (fuel : Nat) (st : State) (buf stream : Nat → Nat)
    (h1 : 1 ≤ st.readCount) (h2 : st.readCount ≤ (MAX_CAPTURE_SIZE : Int))
    (h4 : (4 : Int) ∣ st.readCount) :
    (∀ i ∈ (acquire fuel st buf stream).2.1, i < MAX_CAPTURE_SIZE) ∧
    (∀ i ∈ (acquire fuel st buf stream).2.2, i < MAX_CAPTURE_SIZE) := by
  have hcap : (MAX_CAPTURE_SIZE : Int) = 1536 := by decide
  have hrc4 : 4 ≤ st.readCount := by omega
  have hR1 : 1 ≤ st.readCount.toNat := by omega
  have hR2 : st.readCount.toNat ≤ 1536 := by omega
  have hRlt : ∀ i, i < st.readCount.toNat → i < MAX_CAPTURE_SIZE := by
    unfold MAX_CAPTURE_SIZE
    omega
  have hMAX : (0 : Nat) < MAX_CAPTURE_SIZE := by decide
  unfold acquire
  by_cases h19 : st.divider = 19
  · rw [if_pos h19]
    unfold acquire5MHz
    rcases hf : findTrig st.trigger st.trigger_values stream fuel 0 with _ | k
    · exact ⟨fun i hi => absurd hi (List.not_mem_nil i),
        fun i hi => absurd hi (List.not_mem_nil i)⟩
    · constructor
      · intro i hi
        rcases List.mem_cons.mp hi with hi | hi
        · omega
        · exact hRlt i (lin2_trace_lt stream st.readCount.toNat
            (st.readCount - 1).toNat 1 (by omega) (by omega) _ _ i hi)
      · intro i hi
        rw [List.mem_reverse, List.mem_range] at hi
        exact hRlt i hi
  · rw [if_neg h19]
    by_cases h49 : st.divider = 49
    · rw [if_pos h49]
      unfold acquire2MHz
      have htr0 := trig2_trace_zero st.trigger st.trigger_values stream fuel
        buf 0
      rcases htr : trig2 st.trigger st.trigger_values stream fuel buf 0
        with ⟨ro, tr⟩
      rw [htr] at htr0
      cases ro with
      | none =>
        refine ⟨?_, fun i hi => absurd hi (List.not_mem_nil i)⟩
        intro i hi
        have h0 : i = 0 := htr0 i hi
        omega
      | some p =>
        obtain ⟨buf1, t1⟩ := p
        have hdc : toInt16 (st.readCount - 1) = st.readCount - 1 :=
          toInt16_eq_self _ (by omega) (by omega)
        have hsb : sbiwCount (toInt16 (st.readCount - 1)) =
            st.readCount.toNat - 1 := by
          rw [hdc]
          unfold sbiwCount
          rw [Int.emod_eq_of_lt (by omega) (by omega),
            if_neg (by omega : ¬(st.readCount - 1).toNat = 0)]
          omega
        constructor
        · intro i hi
          rcases List.mem_append.mp hi with hi | hi
          · have h0 : i = 0 := htr0 i hi
            omega
          · rw [hsb] at hi
            exact hRlt i (lin2_trace_lt stream st.readCount.toNat
              (st.readCount.toNat - 1) 1 (by omega) (by omega) _ _ i hi)
        · intro i hi
          rw [List.mem_reverse, List.mem_range] at hi
          exact hRlt i hi
    · rw [if_neg h49]
      unfold acquireSlow
      have hstop : stopOf st.readCount = st.readCount.toNat := by
        unfold stopOf
        rw [Int.emod_eq_of_lt (by omega) (by omega)]
      rw [hstop]
      obtain ⟨hs1, hs2⟩ := slowTrig_safe st.trigger st.trigger_values stream
        st.readCount.toNat (by omega) (by omega) fuel buf 0 0 (by omega)
      rcases htr : slowTrig st.trigger st.trigger_values stream
          st.readCount.toNat fuel buf 0 0 with ⟨ro, tr⟩
      rw [htr] at hs1 hs2
      cases ro with
      | none =>
        exact ⟨fun i hi => hRlt i (hs1 i hi),
          fun i hi => absurd hi (List.not_mem_nil i)⟩
      | some p =>
        obtain ⟨buf1, ptr1, t1⟩ := p
        have hptr1 : ptr1 < st.readCount.toNat := hs2 buf1 ptr1 t1 rfl
        obtain ⟨hp1, hp2⟩ := slowPost_safe stream st.readCount.toNat
          (by omega) (by omega) (sbiwCount st.delayCount) buf1 ptr1 t1 hptr1
        have hli : toInt16 ((slowPost stream st.readCount.toNat
            (sbiwCount st.delayCount) buf1 ptr1 t1).1.2.1 : Int) =
            ((slowPost stream st.readCount.toNat
              (sbiwCount st.delayCount) buf1 ptr1 t1).1.2.1 : Int) :=
          toInt16_eq_self _ (by omega) (by omega)
        constructor
        · intro i hi
          rcases List.mem_append.mp hi with hi | hi
          · exact hRlt i (hs1 i hi)
          · exact hRlt i (hp1 i hi)
        · intro i hi
          have hi2 : i ∈ dumpRevIdx st.readCount st.readCount.toNat
              (toInt16 ((slowPost stream st.readCount.toNat
                (sbiwCount st.delayCount) buf1 ptr1 t1).1.2.1 : Int) - 1) := hi
          rw [hli] at hi2
          exact hRlt i (dumpRevIdx_safe st.readCount (by omega)
            st.readCount.toNat _ (by omega) (by omega) i hi2)

/-- Witness for C4: a concrete slow-regime acquisition with readCount 4
keeps all written and read offsets within capacity. -/
theorem C4_safety_witness :
    (∀ i ∈ (acquire 1 ⟨4, 4, 0, 0, 0⟩ zeroBuf (fun _ => 0)).2.1,
      i < MAX_CAPTURE_SIZE) ∧
    (∀ i ∈ (acquire 1 ⟨4, 4, 0, 0, 0⟩ zeroBuf (fun _ => 0)).2.2,
      i < MAX_CAPTURE_SIZE) :=
  C4_safety 1 ⟨4, 4, 0, 0, 0⟩ zeroBuf (fun _ => 0) (by decide) (by decide)
    ⟨1, by decide⟩

/-! ### C9 -/

lemma acquire_eq_5MHz (fuel : Nat) (st : State) (buf stream : Nat → Nat)
    (h : st.divider = 19) :
    acquire fuel st buf stream = acquire5MHz fuel st buf stream := by
  unfold acquire
  rw [if_pos h]

lemma acquire_eq_2MHz (fuel : Nat) (st : State) (buf stream : Nat → Nat)
    (h19 : st.divider ≠ 19) (h : st.divider = 49) :
    acquire fuel st buf stream = acquire2MHz fuel st buf stream := by
  unfold acquire
  rw [if_neg h19, if_pos h]

/-- C9: issuing arm twice in a row with no intervening commands, on a
constant (time-invariant) input line value, produces identical capture
output on both invocations — also covering the case where the trigger is
never satisfied, in which neither invocation returns. The state mutations
the engine does perform (divider clamp, delayCount overwrite) do not change
the regime selected nor the bytes produced by the second capture. -/
theorem C9_arm_idempotent (fuel : Nat) (st : State) (s : Nat) :
    ((arm fuel st (fun _ => s)).1.bind fun p =>
      (arm fuel p.1 (fun _ => s)).1.map fun q => q.2) =
    (arm fuel st (fun _ => s)).1.map fun p => p.2 := by
  unfold arm
  rcases har : acquire fuel st zeroBuf (fun _ => s) with ⟨ro, w, r⟩
  cases ro with
  | none => rfl
  | some p =>
    obtain ⟨st1, out⟩ := p
    show (acquire fuel st1 zeroBuf (fun _ => s)).1.map (fun q => q.2) =
      some out
    by_cases h19 : st.divider = 19
    · rw [acquire_eq_5MHz fuel st zeroBuf (fun _ => s) h19] at har
      unfold acquire5MHz at har
      rcases hf : findTrig st.trigger st.trigger_values (fun _ => s) fuel 0
        with _ | k
      · rw [hf] at har
        simp at har
      · rw [hf] at har
        simp only [Prod.mk.injEq, Option.some.injEq] at har
        obtain ⟨⟨hst1, hout⟩, hw, hr⟩ := har
        rw [← hst1, acquire_eq_5MHz fuel st zeroBuf (fun _ => s) h19]
        unfold acquire5MHz
        rw [hf]
        exact congrArg some hout
    · by_cases h49 : st.divider = 49
      · rw [acquire_eq_2MHz fuel st zeroBuf (fun _ => s) h19 h49] at har
        unfold acquire2MHz at har
        rcases htr : trig2 st.trigger st.trigger_values (fun _ => s) fuel
            zeroBuf 0 with ⟨ro2, tr2⟩
        rw [htr] at har
        cases ro2 with
        | none => simp at har
        | some q =>
          obtain ⟨buf1, t1⟩ := q
          simp only [Prod.mk.injEq, Option.some.injEq] at har
          obtain ⟨⟨hst1, hout⟩, hw, hr⟩ := har
          have h19b : st1.divider ≠ 19 := by rw [← hst1]; exact h19
          have h49b : st1.divider = 49 := by rw [← hst1]; exact h49
          rw [acquire_eq_2MHz fuel st1 zeroBuf (fun _ => s) h19b h49b]
          unfold acquire2MHz
          have htrb : trig2 st1.trigger st1.trigger_values (fun _ => s) fuel
              zeroBuf 0 = (some (buf1, t1), tr2) := by
            rw [← hst1]
            exact htr
          rw [htrb]
          have hrc : st1.readCount = st.readCount := by rw [← hst1]
          simp only [hrc]
          exact congrArg some hout
      · rw [acquire_eq_slow fuel st zeroBuf (fun _ => s) h19 h49] at har
        unfold acquireSlow at har
        rcases htr : slowTrig st.trigger st.trigger_values (fun _ => s)
            (stopOf st.readCount) fuel zeroBuf 0 0 with ⟨ro2, tr2⟩
        rw [htr] at har
        cases ro2 with
        | none => simp at har
        | some q =>
          obtain ⟨bufa, p1, t1⟩ := q
          simp only [Prod.mk.injEq, Option.some.injEq] at har
          obtain ⟨⟨hst1, hout⟩, hw, hr⟩ := har
          have h19b : st1.divider ≠ 19 := by
            rw [← hst1]
            show clampDivider st.divider ≠ 19
            have := clampDivider_ge st.divider
            omega
          have h49b : st1.divider ≠ 49 := by
            rw [← hst1]
            show clampDivider st.divider ≠ 49
            have := clampDivider_ge st.divider
            omega
          rw [acquire_eq_slow fuel st1 zeroBuf (fun _ => s) h19b h49b]
          unfold acquireSlow
          have htrb : slowTrig st1.trigger st1.trigger_values (fun _ => s)
              (stopOf st1.readCount) fuel zeroBuf 0 0 =
              (some (bufa, p1, t1), tr2) := by
            rw [← hst1]
            exact htr
          rw [htrb]
          have hrc : st1.readCount = st.readCount := by rw [← hst1]
          have hdc : st1.delayCount = st.delayCount := by rw [← hst1]
          simp only [hrc, hdc]
          exact congrArg some hout
